import Mathlib

/-!
Shallow embedding of the agentic orchestration engine of the b3 repository
(package `expert`, file `expert.go`): the data model of model/engine parts,
the recursive `Ask` loop (`Expert.Ask`), the registry construction performed
by `Expert.Start`, and the delegation adapter `Expert.Call`.

The external model service (`chat.Send`) is embedded as a finite script of
pre-determined send results that `ask` consumes one entry per send; a leaf
capability is embedded as a pure function from its argument map to the
`FunctionResponse` it returns.  All observable actions of the engine
(sends to the model, writes to the output sink, logger invocations, and
capability dispatches) are recorded in an event trace.
-/

namespace B3

/-- Go values stored in a `map[string]any`: the cases the engine inspects
(strings, wrapped Go error values, and anything else collapsed to
representative non-string constructors). -/
inductive GoValue where
  | str (s : String)
  | errVal (msg : String)
  | int (n : Int)
  | nil
deriving DecidableEq, Repr

/-- Association-list embedding of a Go `map[string]any`. -/
abbrev ValueMap := List (String × GoValue)

/-- Go map read `m[k]`: the bound value, or the zero value (`nil` for `any`)
when the key is absent. -/
def lookupKey (m : ValueMap) (k : String) : GoValue :=
  match m.find? (fun p => p.1 == k) with
  | some p => p.2
  | none => .nil

/-- Membership of a key in a Go map. -/
def hasKey (m : ValueMap) (k : String) : Bool :=
  (m.find? (fun p => p.1 == k)).isSome

/-- Go `%T` formatting of the embedded values, used by `Expert.Call` in its
invalid-type error message. -/
def goTypeName : GoValue → String
  | .str _ => "string"
  | .errVal _ => "*errors.errorString"
  | .int _ => "int"
  | .nil => "<nil>"

/-- genai.FunctionCall: a model-issued call request. -/
structure FunctionCall where
  id : String
  name : String
  args : ValueMap
deriving DecidableEq, Repr, Inhabited

/-- genai.FunctionResponse: the engine-issued call response. -/
structure FunctionResponse where
  id : String
  name : String
  response : ValueMap
deriving DecidableEq, Repr, Inhabited

/-- genai.Part: the fields of a content part that `Expert.Ask` inspects. -/
structure Part where
  text : String := ""
  functionCall : Option FunctionCall := none
  functionResponse : Option FunctionResponse := none
deriving DecidableEq, Repr

/-- genai.Content: a list of parts. -/
structure Content where
  parts : List Part := []
deriving DecidableEq, Repr

/-- genai.Candidate: the one field `Expert.Ask` reads. -/
structure Candidate where
  content : Option Content
deriving DecidableEq, Repr

/-- genai.GenerateContentResponse: the one field `Expert.Ask` reads. -/
structure GenerateContentResponse where
  candidates : List Candidate
deriving DecidableEq, Repr

/-- Outcome of one `chat.Send` call: a transport error or a model response. -/
inductive SendResult where
  | fail (msg : String)
  | ok (resp : GenerateContentResponse)
deriving DecidableEq, Repr

/-- A capability's `Call` method, embedded as a pure function from the
argument map to the `FunctionResponse` it returns (the engine overwrites
`ID` and `Name` afterwards, so only `Response` matters). -/
abbrev ToolFn := ValueMap → FunctionResponse

/-- The registry `Expert.toolmap`: an association list with unique keys,
maintained by `insertTool`. -/
abbrev Toolmap := List (String × ToolFn)

/-- Registry lookup `e.toolmap[name]`. -/
def lookupTool (tm : Toolmap) (n : String) : Option ToolFn :=
  (tm.find? (fun p => p.1 == n)).map (fun p => p.2)

/-- Registry lookup with the zero value as default, for stating theorems. -/
def toolOf (tm : Toolmap) (n : String) : ToolFn :=
  (lookupTool tm n).getD (fun _ => default)

/-- Go map write `m[k] = v`: replaces an existing binding or appends. -/
def insertTool (tm : Toolmap) (k : String) (v : ToolFn) : Toolmap :=
  match tm with
  | [] => [(k, v)]
  | p :: rest => if p.1 == k then (k, v) :: rest else p :: insertTool rest k v

/-- Observable actions of the engine, recorded in order. -/
inductive Event where
  | sent (parts : List Part)
  | printed (text : String)
  | logQuestion (who msg : String)
  | logResponse (who msg : String)
  | dispatched (name : String) (args : ValueMap)
deriving DecidableEq, Repr

/-- Errors `Expert.Ask` returns: a failed send, or an unknown capability. -/
inductive AskError where
  | sendFailed (msg : String)
  | unknownFunction (name : String)
deriving DecidableEq, Repr

/-- Result and event trace of one `Expert.Ask` invocation. -/
structure AskOutcome where
  result : Except AskError Content
  trace : List Event
deriving Repr

/-- An apostrophe, for building the log message literals of `expert.go`. -/
def apos : String := String.singleton (Char.ofNat 39)

/-- Log message `fmt.Sprintf("Calling %s", name)`. -/
def callingMsg (n : String) : String := "Calling " ++ n

/-- Log message `fmt.Sprintf("Processing %s's response", name)`. -/
def processingMsg (n : String) : String :=
  "Processing " ++ n ++ apos ++ "s response"

/-- The degenerate-turn test of `Expert.Ask` line 78:
`len(resp.Candidates) == 0 || resp.Candidates[0].Content == nil ||
len(resp.Candidates[0].Content.Parts) == 0`; returns the candidate content
when the turn is not degenerate. -/
def turnContent (resp : GenerateContentResponse) : Option Content :=
  match resp.candidates with
  | [] => none
  | c :: _ =>
    match c.content with
    | none => none
    | some ct => if ct.parts.isEmpty then none else some ct

/-- Outcome of the part-scanning loop of `Expert.Ask` (lines 96-117):
either no function call was found (fall through to returning the content),
or an unknown capability name aborted the loop, or the first call was
dispatched, producing the `FunctionResponse` to resend.  Each outcome
carries the events emitted while scanning. -/
inductive ScanOut where
  | noCall (evs : List Event)
  | unknown (evs : List Event) (name : String)
  | dispatch (evs : List Event) (fr : FunctionResponse)
deriving Repr

/-- Events of the statement `if p.Text != "" { fmt.Fprintln(w, p.Text) }`. -/
def partPrint (p : Part) : List Event :=
  if p.text == "" then [] else [.printed p.text]

/-- The part-scanning loop of `Expert.Ask`: prints each part's non-empty
text, and at the first part carrying a `FunctionCall` either aborts (name
not in the registry) or invokes the capability, overwrites the response's
`ID` and `Name` with the request's, and stops. -/
def scanParts (ename : String) (tm : Toolmap) : List Part → ScanOut
  | [] => .noCall []
  | p :: ps =>
    let pe : List Event := partPrint p
    match p.functionCall with
    | some fc =>
      match lookupTool tm fc.name with
      | none => .unknown pe fc.name
      | some tfn =>
        let tr := tfn fc.args
        .dispatch
          (pe ++ [.logResponse ename (callingMsg fc.name),
                  .dispatched fc.name fc.args,
                  .logQuestion ename (processingMsg fc.name)])
          { id := fc.id, name := fc.name, response := tr.response }
    | none =>
      match scanParts ename tm ps with
      | .noCall evs => .noCall (pe ++ evs)
      | .unknown evs n => .unknown (pe ++ evs) n
      | .dispatch evs fr => .dispatch (pe ++ evs) fr

/-- Expert.Ask: send the parts, tolerate a degenerate turn as an empty
successful content, return the content when it carries no function call,
otherwise dispatch the first call and recurse on the wrapped response.
The model service is a script consumed one entry per send; an exhausted
script behaves as a failed send. -/
def ask (ename : String) (tm : Toolmap) :
    List SendResult → List Part → AskOutcome
  | [], parts => ⟨.error (.sendFailed "no response"), [.sent parts]⟩
  | .fail msg :: _, parts => ⟨.error (.sendFailed msg), [.sent parts]⟩
  | .ok resp :: script, parts =>
    match turnContent resp with
    | none => ⟨.ok {}, [.sent parts]⟩
    | some ct =>
      if ct.parts.any (fun p => p.functionCall.isSome) then
        match scanParts ename tm ct.parts with
        | .noCall evs => ⟨.ok ct, .sent parts :: evs⟩
        | .unknown evs n => ⟨.error (.unknownFunction n), .sent parts :: evs⟩
        | .dispatch evs fr =>
          let o := ask ename tm script [{ functionResponse := some fr }]
          ⟨o.result, .sent parts :: evs ++ o.trace⟩
      else ⟨.ok ct, [.sent parts]⟩

/-- Result of the delegation adapter `Expert.Call`: the returned
`FunctionResponse`, or a Go runtime panic (index out of range). -/
inductive CallResult where
  | panics (msg : String)
  | returns (resp : FunctionResponse)
deriving Repr

/-- Result and event trace of one `Expert.Call` invocation. -/
structure CallOutcome where
  result : CallResult
  trace : List Event
deriving Repr

/-- Expert.Call, the delegation adapter: extract the `question` string
argument (type-assertion failure produces an error payload without calling
`Ask`), log the question, ask the delegate, wrap a failed `Ask` as an error
payload, and otherwise read `response.Parts[0].Text` — a runtime panic when
the returned content has no parts — and wrap it as the output payload. -/
def expertCall (ename : String) (tm : Toolmap) (script : List SendResult)
    (args : ValueMap) : CallOutcome :=
  match lookupKey args "question" with
  | .str question =>
    let o := ask ename tm script [{ text := question }]
    match o.result with
    | .error _ =>
      ⟨.returns ⟨"", "", [("error",
          .errVal "something went wrong while calling the expert")]⟩,
        .logQuestion ename question :: o.trace⟩
    | .ok ct =>
      match ct.parts with
      | [] => ⟨.panics "index out of range [0] with length 0",
          .logQuestion ename question :: o.trace⟩
      | p :: _ =>
        ⟨.returns ⟨"", "", [("output", .str p.text)]⟩,
          .logQuestion ename question :: o.trace ++ [.logResponse ename p.text]⟩
  | v =>
    ⟨.returns ⟨"", "", [("error",
        .errVal ("invalid type got " ++ goTypeName v ++ ", expected string"))]⟩,
      []⟩

/-- A declared capability as `Expert.Start` sees it: its declared name, the
outcome of its `Start` method, and its `Call` method. -/
structure ToolSpec where
  name : String
  startErr : Option String := none
  fn : ToolFn

/-- The registry-building loop of `Expert.Start` (lines 50-63): start each
tool in declaration order, aborting on the first `Start` error, and record
it in the map under its declared name (a later tool with the same name
overwrites an earlier one). -/
def startToolmap (acc : Toolmap) : List ToolSpec → Except String Toolmap
  | [] => .ok acc
  | t :: ts =>
    match t.startErr with
    | some e => .error e
    | none => startToolmap (insertTool acc t.name t.fn) ts

/-- Dispatch events of a trace, in order. -/
def dispatchEvents (evs : List Event) : List (String × ValueMap) :=
  evs.filterMap (fun e => match e with
    | .dispatched n a => some (n, a)
    | _ => none)

/-- Send events of a trace, in order: the part lists handed to the model. -/
def sendEvents (evs : List Event) : List (List Part) :=
  evs.filterMap (fun e => match e with
    | .sent ps => some ps
    | _ => none)

/-- Observability-hook invocations of a trace, in order. -/
def logEvents (evs : List Event) : List Event :=
  evs.filter (fun e => match e with
    | .logQuestion _ _ => true
    | .logResponse _ _ => true
    | _ => false)

/-- A model turn carrying exactly one call request. -/
def callTurn (fc : FunctionCall) : SendResult :=
  .ok ⟨[⟨some ⟨[{ functionCall := some fc }]⟩⟩]⟩

/-- A model turn carrying the given terminal content. -/
def textTurn (ct : Content) : SendResult := .ok ⟨[⟨some ct⟩]⟩

/-- The part `Expert.Ask` resends after dispatching `fc`: a lone
`FunctionResponse` whose id and name mirror the request and whose payload
is what the capability returned. -/
def respPart (tm : Toolmap) (fc : FunctionCall) : Part :=
  { functionResponse := some ⟨fc.id, fc.name, (toolOf tm fc.name fc.args).response⟩ }

/-- The engine events of one dispatched call step. -/
def stepEvents (ename : String) (fc : FunctionCall) : List Event :=
  [.logResponse ename (callingMsg fc.name),
   .dispatched fc.name fc.args,
   .logQuestion ename (processingMsg fc.name)]

/-- Print events of a list of parts, in order. -/
def printEvents (ps : List Part) : List Event :=
  ps.foldr (fun q acc => partPrint q ++ acc) []

/-- A model turn whose candidate parts are `pre ++ callPart :: post`:
the shape of one chained call turn, with the triggering request carried by
`callPart` (the first part holding a `FunctionCall` when `pre` is
call-free). -/
structure CallStep where
  pre : List Part
  callPart : Part
  post : List Part

/-- The call request carried by the step's call part. -/
def stepCall (s : CallStep) : FunctionCall :=
  s.callPart.functionCall.getD default

/-- The model turn of a call step. -/
def stepTurn (s : CallStep) : SendResult :=
  .ok ⟨[⟨some ⟨s.pre ++ s.callPart :: s.post⟩⟩]⟩

/-- Well-formedness of a chained call step: the parts before the call part
carry no call, the call part carries one, and its name is registered. -/
def GoodStep (tm : Toolmap) (s : CallStep) : Prop :=
  (∀ q ∈ s.pre, q.functionCall = none) ∧ s.callPart.functionCall.isSome
    ∧ (lookupTool tm (stepCall s).name).isSome

instance (tm : Toolmap) (s : CallStep) : Decidable (GoodStep tm s) := by
  unfold GoodStep; infer_instance

/-- The engine events emitted while processing one call turn, after the
send: prints of the leading parts and of the call part, then the
logger/dispatch events of the call. -/
def stepTrace (ename : String) (s : CallStep) : List Event :=
  printEvents s.pre ++ partPrint s.callPart ++ stepEvents ename (stepCall s)

/-- The script of a chain of call turns. -/
def chainScript (chain : List CallStep) : List SendResult :=
  chain.map stepTurn

/-- The parts `Ask` sends on the turn following the chain: the initial
parts when the chain is empty, else the wrapped response of the last call. -/
def chainCont (tm : Toolmap) (parts0 : List Part) : List CallStep → List Part
  | [] => parts0
  | s :: rest => chainCont tm [respPart tm (stepCall s)] rest

/-- The events emitted across a chain of call turns. -/
def chainEvents (ename : String) (tm : Toolmap) (parts0 : List Part) :
    List CallStep → List Event
  | [] => []
  | s :: rest =>
    .sent parts0 :: stepTrace ename s
      ++ chainEvents ename tm [respPart tm (stepCall s)] rest

/-- The registry produced by the `Expert.Start` loop when every tool
starts successfully: the pure part of `startToolmap`. -/
def buildToolmap (acc : Toolmap) : List ToolSpec → Toolmap
  | [] => acc
  | t :: ts => buildToolmap (insertTool acc t.name t.fn) ts

/-! Concrete fixtures used to exercise the theorems on closed inputs. -/

/-- A capability that returns a success payload. -/
def wTool1 : ToolFn := fun _ => ⟨"", "", [("output", .str "r1")]⟩

/-- A capability that returns an error payload. -/
def wTool2 : ToolFn := fun _ => ⟨"", "", [("error", .errVal "bad")]⟩

/-- A two-capability registry. -/
def wToolmap : Toolmap := [("t1", wTool1), ("t2", wTool2)]

/-- A two-turn chain: a bare call to `t1`, then a call to `t2` surrounded
by a leading text part and a trailing second call request. -/
def wChain : List CallStep :=
  [⟨[], { functionCall := some ⟨"id1", "t1", [("a", .int 1)]⟩ }, []⟩,
   ⟨[{ text := "note" }],
    { functionCall := some ⟨"id2", "t2", []⟩ },
    [{ functionCall := some ⟨"id3", "t1", []⟩ }]⟩]

/-- A terminal text turn. -/
def wFinal : Content := ⟨[{ text := "done" }]⟩

/-- The initial user parts. -/
def wParts : List Part := [{ text := "q" }]

/-! Basic facts about the event filters. -/

theorem dispatchEvents_append (a b : List Event) :
    dispatchEvents (a ++ b) = dispatchEvents a ++ dispatchEvents b :=
  List.filterMap_append a b _

theorem sendEvents_append (a b : List Event) :
    sendEvents (a ++ b) = sendEvents a ++ sendEvents b :=
  List.filterMap_append a b _

theorem logEvents_append (a b : List Event) :
    logEvents (a ++ b) = logEvents a ++ logEvents b :=
  List.filter_append a b

theorem dispatchEvents_partPrint (p : Part) :
    dispatchEvents (partPrint p) = [] := by
  unfold partPrint; split <;> rfl

theorem sendEvents_partPrint (p : Part) :
    sendEvents (partPrint p) = [] := by
  unfold partPrint; split <;> rfl

theorem logEvents_partPrint (p : Part) :
    logEvents (partPrint p) = [] := by
  unfold partPrint; split <;> rfl

theorem dispatchEvents_printEvents (ps : List Part) :
    dispatchEvents (printEvents ps) = [] := by
  induction ps with
  | nil => rfl
  | cons p ps ih =>
    show dispatchEvents (partPrint p ++ printEvents ps) = []
    rw [dispatchEvents_append, dispatchEvents_partPrint, ih]; rfl

theorem sendEvents_printEvents (ps : List Part) :
    sendEvents (printEvents ps) = [] := by
  induction ps with
  | nil => rfl
  | cons p ps ih =>
    show sendEvents (partPrint p ++ printEvents ps) = []
    rw [sendEvents_append, sendEvents_partPrint, ih]; rfl

theorem logEvents_printEvents (ps : List Part) :
    logEvents (printEvents ps) = [] := by
  induction ps with
  | nil => rfl
  | cons p ps ih =>
    show logEvents (partPrint p ++ printEvents ps) = []
    rw [logEvents_append, logEvents_partPrint, ih]; rfl

theorem dispatchEvents_stepEvents (ename : String) (fc : FunctionCall) :
    dispatchEvents (stepEvents ename fc) = [(fc.name, fc.args)] := rfl

theorem sendEvents_stepEvents (ename : String) (fc : FunctionCall) :
    sendEvents (stepEvents ename fc) = [] := rfl

theorem logEvents_length_stepEvents (ename : String) (fc : FunctionCall) :
    (logEvents (stepEvents ename fc)).length = 2 := rfl

theorem printEvents_cons (q : Part) (ps : List Part) :
    printEvents (q :: ps) = partPrint q ++ printEvents ps := rfl

theorem dispatchEvents_cons_sent (ps : List Part) (evs : List Event) :
    dispatchEvents (.sent ps :: evs) = dispatchEvents evs := rfl

theorem sendEvents_cons_sent (ps : List Part) (evs : List Event) :
    sendEvents (.sent ps :: evs) = ps :: sendEvents evs := rfl

theorem logEvents_cons_sent (ps : List Part) (evs : List Event) :
    logEvents (.sent ps :: evs) = logEvents evs := rfl

/-! Unfolding lemmas for the scanning loop and for `ask` on the turn
shapes the claims quantify over. -/

/-- Scanning a turn whose first call-carrying part is `p`, with the call's
name registered: the loop prints the leading texts and dispatches the
call, overwriting the response's id and name. -/
theorem scanParts_found (ename : String) (tm : Toolmap) (p : Part)
    (post : List Part) (fc : FunctionCall) (t : ToolFn)
    (hp : p.functionCall = some fc) (ht : lookupTool tm fc.name = some t) :
    ∀ pre : List Part, (∀ q ∈ pre, q.functionCall = none) →
      scanParts ename tm (pre ++ p :: post) =
        .dispatch (printEvents pre ++ partPrint p ++ stepEvents ename fc)
          ⟨fc.id, fc.name, (t fc.args).response⟩ := by
  intro pre
  induction pre with
  | nil =>
    intro _
    simp [scanParts, hp, ht, printEvents, stepEvents]
  | cons q qre ih =>
    intro h
    have hq : q.functionCall = none := h q (by simp)
    have ih' := ih (fun r hr => h r (by simp [hr]))
    simp [scanParts, hq, ih', printEvents_cons, List.append_assoc]

/-- Scanning a turn whose first call-carrying part is `p`, with the call's
name absent from the registry: the loop prints the leading texts and
aborts. -/
theorem scanParts_unknown (ename : String) (tm : Toolmap) (p : Part)
    (post : List Part) (fc : FunctionCall)
    (hp : p.functionCall = some fc) (ht : lookupTool tm fc.name = none) :
    ∀ pre : List Part, (∀ q ∈ pre, q.functionCall = none) →
      scanParts ename tm (pre ++ p :: post) =
        .unknown (printEvents pre ++ partPrint p) fc.name := by
  intro pre
  induction pre with
  | nil =>
    intro _
    simp [scanParts, hp, ht, printEvents]
  | cons q qre ih =>
    intro h
    have hq : q.functionCall = none := h q (by simp)
    have ih' := ih (fun r hr => h r (by simp [hr]))
    simp [scanParts, hq, ih', printEvents_cons, List.append_assoc]

/-- One `ask` step on a turn whose first call is registered: the engine
sends, prints, dispatches, and recurses on the lone wrapped response part
whose id and name mirror the request and whose payload is the
capability's. -/
theorem ask_turn_found (ename : String) (tm : Toolmap) (pre : List Part)
    (p : Part) (post : List Part) (fc : FunctionCall) (t : ToolFn)
    (script : List SendResult) (parts0 : List Part)
    (hpre : ∀ q ∈ pre, q.functionCall = none)
    (hp : p.functionCall = some fc) (ht : lookupTool tm fc.name = some t) :
    ask ename tm (.ok ⟨[⟨some ⟨pre ++ p :: post⟩⟩]⟩ :: script) parts0 =
      ⟨(ask ename tm script [respPart tm fc]).result,
       .sent parts0 :: (printEvents pre ++ partPrint p ++ stepEvents ename fc)
         ++ (ask ename tm script [respPart tm fc]).trace⟩ := by
  have hscan := scanParts_found ename tm p post fc t hp ht pre hpre
  have hany : (pre ++ p :: post).any (fun q => q.functionCall.isSome) = true := by
    simp [hp]
  simp [ask, turnContent, hscan, hany, respPart, toolOf, ht,
    List.append_assoc]

/-- One `ask` step on a turn whose first call is not registered: the
engine sends, prints the leading texts, and aborts with the
unknown-capability error before any logger or dispatch event. -/
theorem ask_turn_unknown (ename : String) (tm : Toolmap) (pre : List Part)
    (p : Part) (post : List Part) (fc : FunctionCall)
    (script : List SendResult) (parts0 : List Part)
    (hpre : ∀ q ∈ pre, q.functionCall = none)
    (hp : p.functionCall = some fc) (ht : lookupTool tm fc.name = none) :
    ask ename tm (.ok ⟨[⟨some ⟨pre ++ p :: post⟩⟩]⟩ :: script) parts0 =
      ⟨.error (.unknownFunction fc.name),
       .sent parts0 :: (printEvents pre ++ partPrint p)⟩ := by
  have hscan := scanParts_unknown ename tm p post fc hp ht pre hpre
  have hany : (pre ++ p :: post).any (fun q => q.functionCall.isSome) = true := by
    simp [hp]
  simp [ask, turnContent, hscan, hany]

/-- One `ask` step on a call-free, non-empty turn: the engine returns the
turn's content after the one send. -/
theorem ask_textTurn (ename : String) (tm : Toolmap) (final : Content)
    (script : List SendResult) (parts : List Part)
    (h1 : final.parts ≠ []) (h2 : ∀ p ∈ final.parts, p.functionCall = none) :
    ask ename tm (textTurn final :: script) parts = ⟨.ok final, [.sent parts]⟩ := by
  have hany : final.parts.any (fun p => p.functionCall.isSome) = false := by
    rw [List.any_eq_false]
    intro p hp
    simp [h2 p hp]
  have hne : final.parts.isEmpty = false := by
    cases hfp : final.parts with
    | nil => exact absurd hfp h1
    | cons a l => rfl
  simp [ask, textTurn, turnContent, hne, hany]

/-- One `ask` step on a degenerate turn: an empty content and no error. -/
theorem ask_degenerate (ename : String) (tm : Toolmap)
    (resp : GenerateContentResponse) (script : List SendResult)
    (parts : List Part) (h : turnContent resp = none) :
    ask ename tm (.ok resp :: script) parts = ⟨.ok {}, [.sent parts]⟩ := by
  simp [ask, h]

/-- Running `ask` through a chain of well-formed call turns: the engine
dispatches each turn's first call in order and continues as `ask` of the
remaining script on the last wrapped response. -/
theorem ask_chain (ename : String) (tm : Toolmap) :
    ∀ (chain : List CallStep) (parts0 : List Part) (script : List SendResult),
      (∀ s ∈ chain, GoodStep tm s) →
      ask ename tm (chainScript chain ++ script) parts0 =
        ⟨(ask ename tm script (chainCont tm parts0 chain)).result,
         chainEvents ename tm parts0 chain
           ++ (ask ename tm script (chainCont tm parts0 chain)).trace⟩ := by
  intro chain
  induction chain with
  | nil =>
    intro parts0 script _
    simp [chainScript, chainCont, chainEvents]
  | cons s rest ih =>
    intro parts0 script h
    obtain ⟨hpre, hsome, hreg⟩ := h s (by simp)
    obtain ⟨fc, hfc⟩ := Option.isSome_iff_exists.mp hsome
    have hsc : stepCall s = fc := by simp [stepCall, hfc]
    rw [hsc] at hreg
    obtain ⟨t, ht⟩ := Option.isSome_iff_exists.mp hreg
    have ih' := ih [respPart tm fc] script (fun r hr => h r (by simp [hr]))
    rw [chainScript, List.map_cons, List.cons_append]
    show ask ename tm (stepTurn s :: (chainScript rest ++ script)) parts0 = _
    rw [stepTurn,
      ask_turn_found ename tm s.pre s.callPart s.post fc t _ parts0 hpre hfc ht,
      ih']
    simp [chainEvents, chainCont, stepTrace, hsc, chainScript,
      List.append_assoc]

/-- Dispatch events across a chain: one per turn, carrying the triggering
call's name and arguments, in order. -/
theorem dispatchEvents_chainEvents (ename : String) (tm : Toolmap) :
    ∀ (chain : List CallStep) (parts0 : List Part),
      dispatchEvents (chainEvents ename tm parts0 chain)
        = chain.map (fun s => ((stepCall s).name, (stepCall s).args)) := by
  intro chain
  induction chain with
  | nil => intro _; rfl
  | cons s rest ih =>
    intro parts0
    rw [chainEvents, dispatchEvents_append, dispatchEvents_cons_sent,
      stepTrace, dispatchEvents_append, dispatchEvents_append,
      dispatchEvents_printEvents, dispatchEvents_partPrint,
      dispatchEvents_stepEvents, ih]
    simp

/-- Send events across a chain followed by the final continuation send:
the initial parts, then one lone mirrored response part per dispatched
call, in order. -/
theorem sendEvents_chainEvents (ename : String) (tm : Toolmap) :
    ∀ (chain : List CallStep) (parts0 : List Part),
      sendEvents (chainEvents ename tm parts0 chain)
          ++ [chainCont tm parts0 chain]
        = parts0 :: chain.map (fun s => [respPart tm (stepCall s)]) := by
  intro chain
  induction chain with
  | nil => intro _; rfl
  | cons s rest ih =>
    intro parts0
    rw [chainEvents, sendEvents_append, sendEvents_cons_sent,
      stepTrace, sendEvents_append, sendEvents_append,
      sendEvents_printEvents, sendEvents_partPrint, sendEvents_stepEvents,
      chainCont]
    simp only [List.nil_append, List.append_nil, List.cons_append,
      List.map_cons]
    rw [ih]

/-! Registry construction: the pure part of the `Expert.Start` loop and
its lookup behavior. -/

theorem lookupTool_cons (x : String × ToolFn) (tm : Toolmap) (n : String) :
    lookupTool (x :: tm) n = if x.1 = n then some x.2 else lookupTool tm n := by
  by_cases h : x.1 = n
  · rw [lookupTool, List.find?_cons_of_pos _ (by simp [h]), if_pos h]
    rfl
  · rw [lookupTool, List.find?_cons_of_neg _ (by simp [h]), if_neg h]
    rfl

theorem lookupTool_insertTool (k : String) (v : ToolFn) (n : String) :
    ∀ tm : Toolmap,
      lookupTool (insertTool tm k v) n
        = if k = n then some v else lookupTool tm n
  | [] => by
    rw [insertTool, lookupTool_cons]
  | p :: rest => by
    by_cases hpk : p.1 = k
    · rw [insertTool, if_pos (by simp [hpk]), lookupTool_cons,
        lookupTool_cons]
      by_cases hkn : k = n
      · simp [hkn]
      · have hpn : ¬p.1 = n := by rw [hpk]; exact hkn
        simp [hkn, hpn]
    · rw [insertTool, if_neg (by simp [hpk]), lookupTool_cons,
        lookupTool_insertTool k v n rest, lookupTool_cons]
      by_cases hpn : p.1 = n
      · have hkn : ¬k = n := fun h => hpk (by rw [hpn, h])
        simp [hpn, hkn]
      · simp [hpn]

theorem find?_or_append {α : Type} (p : α → Bool) :
    ∀ l1 l2 : List α, (l1 ++ l2).find? p = ((l1.find? p).or (l2.find? p))
  | [], l2 => by simp
  | a :: l1, l2 => by
    by_cases h : p a
    · simp [List.find?_cons_of_pos _ h]
    · simp [List.find?_cons_of_neg _ h, find?_or_append p l1 l2]

/-- Lookup after the `Expert.Start` loop: the last tool declared under the
name wins, falling back to the accumulator. -/
theorem lookupTool_buildToolmap (n : String) :
    ∀ (ts : List ToolSpec) (acc : Toolmap),
      lookupTool (buildToolmap acc ts) n
        = ((ts.reverse.find? (fun t => t.name == n)).map ToolSpec.fn).or
            (lookupTool acc n)
  | [], acc => by simp [buildToolmap]
  | t :: ts, acc => by
    rw [buildToolmap, lookupTool_buildToolmap n ts, List.reverse_cons,
      find?_or_append, lookupTool_insertTool]
    cases hf : ts.reverse.find? (fun t => t.name == n) with
    | some u => simp
    | none =>
      by_cases h : t.name = n
      · simp [List.find?_cons, h]
      · simp [List.find?_cons, h]

/-- The `Expert.Start` loop succeeds whenever every tool's `Start`
succeeds, whatever the declared names are. -/
theorem startToolmap_ok :
    ∀ (ts : List ToolSpec) (acc : Toolmap),
      (∀ t ∈ ts, t.startErr = none) →
      startToolmap acc ts = .ok (buildToolmap acc ts)
  | [], _, _ => rfl
  | t :: ts, acc, h => by
    have ht : t.startErr = none := h t (by simp)
    rw [startToolmap, ht, buildToolmap]
    exact startToolmap_ok ts _ (fun r hr => h r (by simp [hr]))

/-! Observability-hook accounting: how many logger invocations the engine
performs, relative to its capability dispatches. -/

theorem scanParts_counts (ename : String) (tm : Toolmap) :
    ∀ ps : List Part,
      (∀ evs, scanParts ename tm ps = .noCall evs →
        logEvents evs = [] ∧ dispatchEvents evs = []) ∧
      (∀ evs n, scanParts ename tm ps = .unknown evs n →
        logEvents evs = [] ∧ dispatchEvents evs = []) ∧
      (∀ evs fr, scanParts ename tm ps = .dispatch evs fr →
        (logEvents evs).length = 2 ∧ (dispatchEvents evs).length = 1) := by
  intro ps
  induction ps with
  | nil =>
    refine ⟨?_, ?_, ?_⟩
    · intro evs h
      simp only [scanParts] at h
      cases h
      exact ⟨rfl, rfl⟩
    · intro evs n h
      simp only [scanParts] at h
      cases h
    · intro evs fr h
      simp only [scanParts] at h
      cases h
  | cons p ps ih =>
    obtain ⟨ihn, ihu, ihd⟩ := ih
    cases hfc : p.functionCall with
    | some fc =>
      cases hlk : lookupTool tm fc.name with
      | none =>
        refine ⟨?_, ?_, ?_⟩
        · intro evs h
          simp only [scanParts, hfc, hlk] at h
          cases h
        · intro evs n h
          simp only [scanParts, hfc, hlk] at h
          cases h
          exact ⟨logEvents_partPrint p, dispatchEvents_partPrint p⟩
        · intro evs fr h
          simp only [scanParts, hfc, hlk] at h
          cases h
      | some t =>
        refine ⟨?_, ?_, ?_⟩
        · intro evs h
          simp only [scanParts, hfc, hlk] at h
          cases h
        · intro evs n h
          simp only [scanParts, hfc, hlk] at h
          cases h
        · intro evs fr h
          simp only [scanParts, hfc, hlk] at h
          cases h
          constructor
          · rw [logEvents_append, logEvents_partPrint]
            rfl
          · rw [dispatchEvents_append, dispatchEvents_partPrint]
            rfl
    | none =>
      refine ⟨?_, ?_, ?_⟩
      · intro evs h
        simp only [scanParts, hfc] at h
        cases hs : scanParts ename tm ps <;> rw [hs] at h <;> cases h
        obtain ⟨hl, hd⟩ := ihn _ hs
        constructor
        · rw [logEvents_append, logEvents_partPrint, hl]
          rfl
        · rw [dispatchEvents_append, dispatchEvents_partPrint, hd]
          rfl
      · intro evs n h
        simp only [scanParts, hfc] at h
        cases hs : scanParts ename tm ps <;> rw [hs] at h <;> cases h
        obtain ⟨hl, hd⟩ := ihu _ _ hs
        constructor
        · rw [logEvents_append, logEvents_partPrint, hl]
          rfl
        · rw [dispatchEvents_append, dispatchEvents_partPrint, hd]
          rfl
      · intro evs fr h
        simp only [scanParts, hfc] at h
        cases hs : scanParts ename tm ps <;> rw [hs] at h <;> cases h
        obtain ⟨hl, hd⟩ := ihd _ _ hs
        constructor
        · rw [logEvents_append, logEvents_partPrint, List.nil_append, hl]
        · rw [dispatchEvents_append, dispatchEvents_partPrint,
            List.nil_append, hd]

/-- Across any run of `ask`, the hook is invoked exactly twice per
capability dispatch (the "Calling X" and "Processing X's response"
messages) and never otherwise — in particular a fatal termination adds no
hook invocation. -/
theorem ask_log_counts (ename : String) (tm : Toolmap) :
    ∀ (script : List SendResult) (parts : List Part),
      (logEvents (ask ename tm script parts).trace).length
        = 2 * (dispatchEvents (ask ename tm script parts).trace).length := by
  intro script
  induction script with
  | nil => intro parts; rfl
  | cons r rest ih =>
    intro parts
    cases r with
    | fail msg => rfl
    | ok resp =>
      cases hc : turnContent resp with
      | none => simp [ask, hc, logEvents, dispatchEvents]
      | some ct =>
        by_cases hany : ct.parts.any (fun p => p.functionCall.isSome)
        · obtain ⟨hnc, hun, hdi⟩ := scanParts_counts ename tm ct.parts
          cases hscan : scanParts ename tm ct.parts with
          | noCall evs =>
            obtain ⟨hl, hd⟩ := hnc evs hscan
            simp only [ask, hc, hany, hscan, if_true]
            rw [logEvents_cons_sent, dispatchEvents_cons_sent, hl, hd]
            rfl
          | unknown evs n =>
            obtain ⟨hl, hd⟩ := hun evs n hscan
            simp only [ask, hc, hany, hscan, if_true]
            rw [logEvents_cons_sent, dispatchEvents_cons_sent, hl, hd]
            rfl
          | dispatch evs fr =>
            obtain ⟨hl, hd⟩ := hdi evs fr hscan
            simp only [ask, hc, hany, hscan, if_true]
            rw [logEvents_append, logEvents_cons_sent, dispatchEvents_append,
              dispatchEvents_cons_sent, List.length_append,
              List.length_append, hl, hd, ih]
            omega
        · simp [ask, hc, hany, logEvents, dispatchEvents]

/-- Characterization of the degenerate turns of `Expert.Ask` line 78: no
candidates, a nil content, or a content with zero parts. -/
theorem turnContent_eq_none (resp : GenerateContentResponse)
    (h : resp.candidates = [] ∨ (∃ cs, resp.candidates = ⟨none⟩ :: cs)
      ∨ ∃ cs, resp.candidates = ⟨some ⟨[]⟩⟩ :: cs) :
    turnContent resp = none := by
  obtain h | ⟨cs, h⟩ | ⟨cs, h⟩ := h <;> simp [turnContent, h]

/-! Claims. -/

/-- C1.  For every sequence of N model turns that each contain a
CallRequest (possibly surrounded by text parts and further call requests),
followed by one call-free text turn, `Ask` performs exactly the N
capability dispatches of the turns' first call requests in order; for each
dispatch the engine resends to the model exactly one part, a CallResponse
whose id and name equal the triggering CallRequest's id and name and whose
payload is exactly the payload the capability's `Call` returned
(`respPart` — in particular an `error` payload is resent as data and, the
result being `.ok`, causes no fatal error); and `Ask` returns the final
text turn's content. -/
theorem c1_chained_calls_mirror (ename : String) (tm : Toolmap)
    (chain : List CallStep) (final : Content) (parts0 : List Part)
    (hg : ∀ s ∈ chain, GoodStep tm s) (hne : final.parts ≠ [])
    (hnc : ∀ p ∈ final.parts, p.functionCall = none) :
    (ask ename tm (chainScript chain ++ [textTurn final]) parts0).result
        = .ok final
    ∧ dispatchEvents
        (ask ename tm (chainScript chain ++ [textTurn final]) parts0).trace
        = chain.map (fun s => ((stepCall s).name, (stepCall s).args))
    ∧ sendEvents
        (ask ename tm (chainScript chain ++ [textTurn final]) parts0).trace
        = parts0 :: chain.map (fun s => [respPart tm (stepCall s)]) := by
  have hmain := ask_chain ename tm chain parts0 [textTurn final] hg
  rw [ask_textTurn ename tm final [] (chainCont tm parts0 chain) hne hnc]
    at hmain
  rw [hmain]
  refine ⟨rfl, ?_, ?_⟩
  · rw [dispatchEvents_append, dispatchEvents_chainEvents]
    simp [dispatchEvents]
  · rw [sendEvents_append,
      show sendEvents [Event.sent (chainCont tm parts0 chain)]
          = [chainCont tm parts0 chain] from rfl]
    exact sendEvents_chainEvents ename tm chain parts0

/-- Witness for C1 on the concrete two-turn chain (the second capability
returns an `error` payload, which is resent verbatim). -/
theorem c1_witness :
    (ask "e" wToolmap (chainScript wChain ++ [textTurn wFinal]) wParts).result
        = .ok wFinal
    ∧ dispatchEvents
        (ask "e" wToolmap (chainScript wChain ++ [textTurn wFinal]) wParts).trace
        = wChain.map (fun s => ((stepCall s).name, (stepCall s).args))
    ∧ sendEvents
        (ask "e" wToolmap (chainScript wChain ++ [textTurn wFinal]) wParts).trace
        = wParts :: wChain.map (fun s => [respPart wToolmap (stepCall s)]) :=
  c1_chained_calls_mirror "e" wToolmap wChain wFinal wParts (by decide)
    (by decide) (by decide)

/-- C2.  For every model turn whose parts are `pre ++ p :: post` with `p`
carrying the first CallRequest (`post` may hold arbitrarily many further
CallRequests), `Ask` executes only that first CallRequest: the whole
outcome equals one send, the prints up to and including `p`, the dispatch
events of `p`'s call, and the recursive continuation on the lone mirrored
response — so every later CallRequest of the turn is discarded and the
turn contributes exactly one dispatch. -/
theorem c2_first_call_only (ename : String) (tm : Toolmap) (pre : List Part)
    (p : Part) (post : List Part) (fc : FunctionCall) (t : ToolFn)
    (rest : List SendResult) (parts0 : List Part)
    (hpre : ∀ q ∈ pre, q.functionCall = none)
    (hp : p.functionCall = some fc)
    (ht : lookupTool tm fc.name = some t) :
    ask ename tm (.ok ⟨[⟨some ⟨pre ++ p :: post⟩⟩]⟩ :: rest) parts0
      = ⟨(ask ename tm rest [respPart tm fc]).result,
         .sent parts0 :: (printEvents pre ++ partPrint p ++ stepEvents ename fc)
           ++ (ask ename tm rest [respPart tm fc]).trace⟩
    ∧ dispatchEvents
        (ask ename tm (.ok ⟨[⟨some ⟨pre ++ p :: post⟩⟩]⟩ :: rest) parts0).trace
      = (fc.name, fc.args)
          :: dispatchEvents (ask ename tm rest [respPart tm fc]).trace := by
  have h1 := ask_turn_found ename tm pre p post fc t rest parts0 hpre hp ht
  refine ⟨h1, ?_⟩
  rw [h1]
  show dispatchEvents
      ((Event.sent parts0
          :: (printEvents pre ++ partPrint p ++ stepEvents ename fc))
        ++ (ask ename tm rest [respPart tm fc]).trace) = _
  rw [dispatchEvents_append, dispatchEvents_cons_sent,
    dispatchEvents_append, dispatchEvents_append,
    dispatchEvents_printEvents, dispatchEvents_partPrint,
    dispatchEvents_stepEvents]
  rfl

/-- Witness for C2: a turn holding two CallRequests dispatches only the
first. -/
theorem c2_witness :
    ask "e" wToolmap
        (.ok ⟨[⟨some ⟨[] ++ { functionCall := some ⟨"i1", "t1", []⟩ }
            :: [{ functionCall := some ⟨"i2", "t2", []⟩ }]⟩⟩]⟩ :: []) wParts
      = ⟨(ask "e" wToolmap [] [respPart wToolmap ⟨"i1", "t1", []⟩]).result,
         .sent wParts :: (printEvents []
             ++ partPrint { functionCall := some ⟨"i1", "t1", []⟩ }
             ++ stepEvents "e" ⟨"i1", "t1", []⟩)
           ++ (ask "e" wToolmap [] [respPart wToolmap ⟨"i1", "t1", []⟩]).trace⟩
    ∧ dispatchEvents
        (ask "e" wToolmap
          (.ok ⟨[⟨some ⟨[] ++ { functionCall := some ⟨"i1", "t1", []⟩ }
              :: [{ functionCall := some ⟨"i2", "t2", []⟩ }]⟩⟩]⟩ :: []) wParts).trace
      = ("t1", [])
          :: dispatchEvents
            (ask "e" wToolmap [] [respPart wToolmap ⟨"i1", "t1", []⟩]).trace :=
  c2_first_call_only "e" wToolmap [] { functionCall := some ⟨"i1", "t1", []⟩ }
    [{ functionCall := some ⟨"i2", "t2", []⟩ }] ⟨"i1", "t1", []⟩ wTool1 [] wParts
    (by decide) (by decide) rfl

/-- C3.  For every model turn whose first CallRequest carries a name
absent from the registry, `Ask` returns the fatal unknown-capability
error, dispatches no capability at all, and sends nothing back to the
model beyond the original send. -/
theorem c3_unknown_capability (ename : String) (tm : Toolmap)
    (pre : List Part) (p : Part) (post : List Part) (fc : FunctionCall)
    (rest : List SendResult) (parts0 : List Part)
    (hpre : ∀ q ∈ pre, q.functionCall = none)
    (hp : p.functionCall = some fc)
    (ht : lookupTool tm fc.name = none) :
    (ask ename tm (.ok ⟨[⟨some ⟨pre ++ p :: post⟩⟩]⟩ :: rest) parts0).result
        = .error (.unknownFunction fc.name)
    ∧ dispatchEvents
        (ask ename tm (.ok ⟨[⟨some ⟨pre ++ p :: post⟩⟩]⟩ :: rest) parts0).trace
        = []
    ∧ sendEvents
        (ask ename tm (.ok ⟨[⟨some ⟨pre ++ p :: post⟩⟩]⟩ :: rest) parts0).trace
        = [parts0] := by
  rw [ask_turn_unknown ename tm pre p post fc rest parts0 hpre hp ht]
  refine ⟨rfl, ?_, ?_⟩
  · rw [dispatchEvents_cons_sent, dispatchEvents_append,
      dispatchEvents_printEvents, dispatchEvents_partPrint]
    rfl
  · rw [sendEvents_cons_sent, sendEvents_append, sendEvents_printEvents,
      sendEvents_partPrint]
    rfl

/-- Witness for C3 at a call to an unregistered name. -/
theorem c3_witness :
    (ask "e" wToolmap
        (.ok ⟨[⟨some ⟨[] ++ { functionCall := some ⟨"i9", "zz", []⟩ } :: []⟩⟩]⟩
          :: []) wParts).result
        = .error (.unknownFunction "zz")
    ∧ dispatchEvents
        (ask "e" wToolmap
          (.ok ⟨[⟨some ⟨[] ++ { functionCall := some ⟨"i9", "zz", []⟩ } :: []⟩⟩]⟩
            :: []) wParts).trace = []
    ∧ sendEvents
        (ask "e" wToolmap
          (.ok ⟨[⟨some ⟨[] ++ { functionCall := some ⟨"i9", "zz", []⟩ } :: []⟩⟩]⟩
            :: []) wParts).trace = [wParts] :=
  c3_unknown_capability "e" wToolmap [] { functionCall := some ⟨"i9", "zz", []⟩ }
    [] ⟨"i9", "zz", []⟩ [] wParts (by decide) (by decide) rfl

/-- C5.  `Ask` bounds nothing: (first conjunct) for every chain of N
well-formed call turns followed by a call-free text turn, `Ask` terminates
successfully after exactly N+1 sends and N dispatches (recursion depth N),
with no budget error for any N; (second conjunct) across a script whose
consumed turns all carry a registered CallRequest, `Ask`'s result is
entirely determined by the remaining script — within such a run it
neither returns nor raises any error, so termination relies only on the
model eventually producing a call-free turn. -/
theorem c5_no_recursion_bound :
    (∀ (ename : String) (tm : Toolmap) (chain : List CallStep)
        (final : Content) (parts0 : List Part),
      (∀ s ∈ chain, GoodStep tm s) → final.parts ≠ [] →
      (∀ p ∈ final.parts, p.functionCall = none) →
      (ask ename tm (chainScript chain ++ [textTurn final]) parts0).result
          = .ok final
      ∧ (sendEvents
          (ask ename tm (chainScript chain ++ [textTurn final]) parts0).trace).length
          = chain.length + 1
      ∧ (dispatchEvents
          (ask ename tm (chainScript chain ++ [textTurn final]) parts0).trace).length
          = chain.length)
    ∧ (∀ (ename : String) (tm : Toolmap) (chain : List CallStep)
        (rest : List SendResult) (parts0 : List Part),
      (∀ s ∈ chain, GoodStep tm s) →
      (ask ename tm (chainScript chain ++ rest) parts0).result
        = (ask ename tm rest (chainCont tm parts0 chain)).result) := by
  constructor
  · intro ename tm chain final parts0 hg hne hnc
    have hmain := ask_chain ename tm chain parts0 [textTurn final] hg
    rw [ask_textTurn ename tm final [] (chainCont tm parts0 chain) hne hnc]
      at hmain
    rw [hmain]
    refine ⟨rfl, ?_, ?_⟩
    · have hs := congrArg List.length (sendEvents_chainEvents ename tm chain parts0)
      simp only [List.length_append, List.length_cons, List.length_map] at hs
      show (sendEvents (chainEvents ename tm parts0 chain
          ++ [Event.sent (chainCont tm parts0 chain)])).length
          = chain.length + 1
      rw [sendEvents_append, List.length_append,
        show sendEvents [Event.sent (chainCont tm parts0 chain)]
            = [chainCont tm parts0 chain] from rfl]
      simp only [List.length_cons]
      omega
    · rw [dispatchEvents_append, dispatchEvents_chainEvents]
      simp [dispatchEvents]
  · intro ename tm chain rest parts0 hg
    rw [ask_chain ename tm chain parts0 rest hg]

/-- Witness for C5 on the concrete two-turn chain and on a script
continuation. -/
theorem c5_witness :
    ((ask "e" wToolmap (chainScript wChain ++ [textTurn wFinal]) wParts).result
        = .ok wFinal
      ∧ (sendEvents
          (ask "e" wToolmap (chainScript wChain ++ [textTurn wFinal]) wParts).trace).length
          = wChain.length + 1
      ∧ (dispatchEvents
          (ask "e" wToolmap (chainScript wChain ++ [textTurn wFinal]) wParts).trace).length
          = wChain.length)
    ∧ (ask "e" wToolmap (chainScript wChain ++ [SendResult.fail "boom"]) wParts).result
        = (ask "e" wToolmap [SendResult.fail "boom"]
            (chainCont wToolmap wParts wChain)).result :=
  ⟨c5_no_recursion_bound.1 "e" wToolmap wChain wFinal wParts (by decide)
      (by decide) (by decide),
   c5_no_recursion_bound.2 "e" wToolmap wChain [SendResult.fail "boom"] wParts
      (by decide)⟩

/-- C6.  For every model turn with no candidates, a nil candidate content,
or a candidate content with zero parts, `Ask` returns the empty content
object and a nil error — never an error result. -/
theorem c6_degenerate_turn (ename : String) (tm : Toolmap)
    (resp : GenerateContentResponse) (script : List SendResult)
    (parts0 : List Part)
    (h : resp.candidates = [] ∨ (∃ cs, resp.candidates = ⟨none⟩ :: cs)
      ∨ ∃ cs, resp.candidates = ⟨some ⟨[]⟩⟩ :: cs) :
    ask ename tm (.ok resp :: script) parts0 = ⟨.ok {}, [.sent parts0]⟩ :=
  ask_degenerate ename tm resp script parts0 (turnContent_eq_none resp h)

/-- Witness for C6 at a response with no candidates. -/
theorem c6_witness :
    ask "e" wToolmap (.ok ⟨[]⟩ :: []) wParts = ⟨.ok {}, [.sent wParts]⟩ :=
  c6_degenerate_turn "e" wToolmap ⟨[]⟩ [] wParts (Or.inl rfl)

/-- C7 counterexample.  At a failed send, `Ask` terminates with the fatal
error and the whole trace holds not a single observability-hook
invocation: the claim that the hook is invoked for the terminating error
is false at this input. -/
theorem c7_counterexample :
    (ask "e" wToolmap [SendResult.fail "boom"] wParts).result
        = .error (.sendFailed "boom")
    ∧ logEvents (ask "e" wToolmap [SendResult.fail "boom"] wParts).trace
        = [] :=
  ⟨rfl, rfl⟩

/-- C7 amended.  The observability hook is invoked exactly twice per
capability dispatch (immediately before a capability is invoked and
immediately after it returns) and, at delegate entry, `Expert.Call` logs
the forwarded question first; but the hook is never invoked for a fatal
error terminating `Ask` — an erroring run still has exactly two hook
invocations per dispatch and none for the error itself. -/
theorem c7_hook_only_around_dispatches :
    (∀ (ename : String) (tm : Toolmap) (script : List SendResult)
        (parts : List Part),
      (logEvents (ask ename tm script parts).trace).length
        = 2 * (dispatchEvents (ask ename tm script parts).trace).length)
    ∧ (∀ (ename : String) (tm : Toolmap) (script : List SendResult)
        (q : String),
      (expertCall ename tm script [("question", GoValue.str q)]).trace.head?
        = some (.logQuestion ename q)) := by
  constructor
  · exact fun ename tm => ask_log_counts ename tm
  · intro ename tm script q
    have hq : lookupKey [("question", GoValue.str q)] "question"
        = .str q := by
      simp [lookupKey]
    simp only [expertCall, hq]
    rcases hr : (ask ename tm script [{ text := q }]).result with e | ct
    · simp
    · rcases hp : ct.parts with _ | ⟨p, l⟩
      · simp [hp]
      · simp [hp]

/-- C8.  The `Expert.Start` registry loop never fails because of a name
collision — it succeeds whenever every capability's `Start` succeeds —
and lookup of any name afterwards returns the capability of the last
declaration carrying that name (last-write-wins). -/
theorem c8_last_write_wins (tools : List ToolSpec)
    (h : ∀ t ∈ tools, t.startErr = none) :
    startToolmap [] tools = .ok (buildToolmap [] tools)
    ∧ ∀ n, lookupTool (buildToolmap [] tools) n
        = (tools.reverse.find? (fun t => t.name == n)).map ToolSpec.fn := by
  refine ⟨startToolmap_ok tools [] h, fun n => ?_⟩
  rw [lookupTool_buildToolmap]
  rw [show lookupTool [] n = none from rfl, Option.or_none]

/-- Witness for C8 on two capabilities declared under the same name. -/
theorem c8_witness :
    startToolmap [] [⟨"n", none, wTool1⟩, ⟨"n", none, wTool2⟩]
        = .ok (buildToolmap [] [⟨"n", none, wTool1⟩, ⟨"n", none, wTool2⟩])
    ∧ ∀ n, lookupTool (buildToolmap [] [⟨"n", none, wTool1⟩, ⟨"n", none, wTool2⟩]) n
        = (([⟨"n", none, wTool1⟩, ⟨"n", none, wTool2⟩] : List ToolSpec).reverse.find?
            (fun t => t.name == n)).map ToolSpec.fn :=
  c8_last_write_wins [⟨"n", none, wTool1⟩, ⟨"n", none, wTool2⟩]
    (by decide)

/-- C9.  Whenever the delegation adapter `Expert.Call` returns a payload,
that payload holds exactly one of the keys `output` and `error`, never
both. -/
theorem c9_payload_exclusive (ename : String) (tm : Toolmap)
    (script : List SendResult) (args : ValueMap) (r : FunctionResponse)
    (h : (expertCall ename tm script args).result = .returns r) :
    (hasKey r.response "output" = true ∧ hasKey r.response "error" = false)
    ∨ (hasKey r.response "error" = true ∧ hasKey r.response "output" = false) := by
  cases hq : lookupKey args "question" with
  | str q =>
    simp only [expertCall, hq] at h
    rcases hr : (ask ename tm script [{ text := q }]).result with e | ct
    · rw [hr] at h
      simp at h
      rw [← h]
      right
      exact ⟨rfl, rfl⟩
    · rcases hp : ct.parts with _ | ⟨p, l⟩
      · rw [hr] at h
        simp only [hp] at h
        simp at h
      · rw [hr] at h
        simp only [hp] at h
        simp at h
        rw [← h]
        left
        exact ⟨rfl, rfl⟩
  | errVal m =>
    simp only [expertCall, hq] at h
    simp at h
    rw [← h]
    right
    exact ⟨rfl, rfl⟩
  | int m =>
    simp only [expertCall, hq] at h
    simp at h
    rw [← h]
    right
    exact ⟨rfl, rfl⟩
  | nil =>
    simp only [expertCall, hq] at h
    simp at h
    rw [← h]
    right
    exact ⟨rfl, rfl⟩

/-- Witness for C9 on a delegate run that terminates with text. -/
theorem c9_witness :
    (hasKey (FunctionResponse.mk "" "" [("output", GoValue.str "done")]).response
        "output" = true
      ∧ hasKey (FunctionResponse.mk "" "" [("output", GoValue.str "done")]).response
        "error" = false)
    ∨ (hasKey (FunctionResponse.mk "" "" [("output", GoValue.str "done")]).response
        "error" = true
      ∧ hasKey (FunctionResponse.mk "" "" [("output", GoValue.str "done")]).response
        "output" = false) :=
  c9_payload_exclusive "e" wToolmap [textTurn wFinal]
    [("question", GoValue.str "Q")] ⟨"", "", [("output", GoValue.str "done")]⟩
    rfl

/-- C10.  When the `question` argument is absent or bound to a non-string
value, the delegation adapter returns an error payload (with no `output`
key) and its trace is empty — in particular the delegate's `Ask` is never
invoked (every `ask` run records its send first) and nothing is sent to
the model service. -/
theorem c10_invalid_question (ename : String) (tm : Toolmap)
    (script : List SendResult) (args : ValueMap)
    (h : ∀ s, lookupKey args "question" ≠ .str s) :
    (expertCall ename tm script args).trace = []
    ∧ ∃ r, (expertCall ename tm script args).result = .returns r
        ∧ hasKey r.response "error" = true
        ∧ hasKey r.response "output" = false := by
  cases hq : lookupKey args "question" with
  | str s => exact absurd hq (h s)
  | errVal m =>
    simp only [expertCall, hq]
    exact ⟨by trivial, _, rfl, rfl, rfl⟩
  | int m =>
    simp only [expertCall, hq]
    exact ⟨by trivial, _, rfl, rfl, rfl⟩
  | nil =>
    simp only [expertCall, hq]
    exact ⟨by trivial, _, rfl, rfl, rfl⟩

/-- Witness for C10 at an argument map with no `question` key. -/
theorem c10_witness :
    (expertCall "e" wToolmap [] []).trace = []
    ∧ ∃ r, (expertCall "e" wToolmap [] []).result = .returns r
        ∧ hasKey r.response "error" = true
        ∧ hasKey r.response "output" = false :=
  c10_invalid_question "e" wToolmap [] [] (fun _ h => nomatch h)

/-- C4 (code behavior at the failing input).  With `question` bound to a
string, the delegation adapter invokes the delegate's `Ask` exactly once
with the question as sole part; but when the delegate's model answers
with a degenerate turn, `Ask` succeeds with an empty content and
`Expert.Call` then evaluates `response.Parts[0]` on a zero-length slice:
a runtime panic, not the `error` payload the specification requires. -/
theorem c4_empty_delegate_answer_panics :
    expertCall "delegate" wToolmap [SendResult.ok ⟨[]⟩]
        [("question", GoValue.str "Q")]
      = ⟨.panics "index out of range [0] with length 0",
         [.logQuestion "delegate" "Q", .sent [{ text := "Q" }]]⟩ := rfl

end B3
